import Mathlib

/-!
Verification development for the devops-mlops-report CI reporting pipeline.

The Python sources under .github/scripts are shallowly embedded here:
Python `str` values that undergo character-level processing are modelled as
`List Char` (abbreviated `Str`); numeric (`float`) values are modelled as
exact rationals `ℚ`; fallible operations return `Option`.  Each namespace
mirrors one source file (DetectCauseMlops ↔ detect_cause_mlops.py,
Phase2Step2 ↔ phase2_step2.py, GenerateSummaryMd ↔ generate_summary_md.py,
RenderSvg ↔ render_svg.py) and each definition keeps the source's name.
-/

/-- Python `str` modelled at the character level. -/
abbrev Str : Type := List Char

/-- ASCII whitespace as stripped by Python's `str.strip()`. -/
def isWs (c : Char) : Bool :=
  c = ' ' || c = '\t' || c = '\n' || c = '\r' || c = '\x0b' || c = '\x0c'

/-- Python `s.strip()`: drop whitespace from both ends. -/
def pyStrip (s : Str) : Str :=
  ((s.dropWhile isWs).reverse.dropWhile isWs).reverse

/-- Python `s.lstrip(cs)`: drop leading characters that belong to `cs`
(a character *set*, not a prefix string). -/
def pyLstrip (cs : List Char) (s : Str) : Str :=
  s.dropWhile (fun c => cs.contains c)

/-- Python `s.rstrip(cs)`: drop trailing characters that belong to `cs`. -/
def pyRstrip (cs : List Char) (s : Str) : Str :=
  (s.reverse.dropWhile (fun c => cs.contains c)).reverse

/-- Python `s.strip(cs)`: drop characters of `cs` from both ends. -/
def pyStripChars (cs : List Char) (s : Str) : Str :=
  pyRstrip cs (pyLstrip cs s)

/-- Python `s.replace("\\", "/")` (single-character replacement). -/
def pyReplaceBackslash (s : Str) : Str :=
  s.map (fun c => if c = '\\' then '/' else c)

/-- Python `s.split(c)` for a one-character separator: always returns at
least one (possibly empty) piece. -/
def splitCh (c : Char) : Str → List Str
  | [] => [[]]
  | x :: xs =>
      let r := splitCh c xs
      if x = c then [] :: r
      else (x :: r.headD []) :: r.tail

/-- Python `c.join(pieces)` for a one-character separator. -/
def joinCh (c : Char) : List Str → Str
  | [] => []
  | [s] => s
  | s :: rest => s ++ c :: joinCh c (rest)

/-- Result of a `classify_cause` call: the verdict string (`""` encodes
the `None` verdict) plus the two aggregate hit flags that both sources
expose through their `dbg` dictionaries (the remaining `dbg` entries are
pure string formatting and are omitted). -/
structure ClassifyResult where
  cause : String
  script_hit : Bool
  data_hit : Bool
  deriving Repr, DecidableEq

/-- The `if/elif` chain ending both `classify_cause` implementations,
resolving the two hit flags into the verdict string (`""` encodes
`None`). -/
def resolve_cause (script_hit data_hit : Bool) : String :=
  if script_hit && data_hit then "Both"
  else if script_hit then "Script"
  else if data_hit then "Data"
  else ""

namespace DetectCauseMlops

/-- Embedding of `detect_cause_mlops.normalize_repo_rel_path`.  The Python
source is
  `p = (p or "").replace("\\", "/").strip()` ;
  `p = p.lstrip("./")` (note: strips the *character set* dot-and-slash) ;
  a branch dropping the first two segments when the path starts with
  `../` ; and a loop stripping the first matching `repo_hints` entry.
The Python global `REPO_HINTS` set is passed explicitly as a list. -/
def normalize_repo_rel_path (p : Str) (repo_hints : List Str) : Str :=
  let p1 : Str := pyLstrip ['.', '/'] (pyStrip (pyReplaceBackslash p))
  let p2 : Str :=
    if ['.', '.', '/'].isPrefixOf p1 then
      let parts := (splitCh '/' p1).filter (fun s => decide (s ≠ []))
      if 3 ≤ parts.length ∧ parts.headD [] = ['.', '.'] then
        joinCh '/' (parts.drop 2)
      else p1
    else p1
  stripHints repo_hints p2
where
  /-- The `for rh in repo_hints: ... break` loop body. -/
  stripHints : List Str → Str → Str
    | [], p => p
    | rh :: rest, p =>
        let r := pyStripChars ['/'] (pyStrip rh)
        if r ≠ [] ∧ (r ++ ['/']).isPrefixOf p then p.drop (r.length + 1)
        else stripHints rest p

/-- Embedding of `detect_cause_mlops.classify_cause`.  The source's
per-file loop only ever raises the two flags, so it is equivalently
expressed with `List.any`. -/
def classify_cause (changed_files script_paths data_paths repo_hints : List Str) :
    ClassifyResult :=
  let changed := changed_files.map (fun f => normalize_repo_rel_path f repo_hints)
  let script_targets :=
    (script_paths.filter (fun sp => decide (sp ≠ []))).map
      (fun sp => pyRstrip ['/'] (normalize_repo_rel_path sp repo_hints))
  let norm_data_paths :=
    (data_paths.filter (fun dp => decide (dp ≠ []))).map
      (fun dp => pyRstrip ['/'] (normalize_repo_rel_path dp repo_hints))
  let script_hit := changed.any (fun f => script_targets.any (fun p => decide (f = p)))
  let data_hit := changed.any (fun f =>
    norm_data_paths.any (fun dp =>
      decide (dp ≠ []) && (decide (f = dp) || (dp ++ ['/']).isPrefixOf f)))
  ⟨resolve_cause script_hit data_hit, script_hit, data_hit⟩

end DetectCauseMlops

namespace Phase2Step2

/-- Embedding of `phase2_step2.classify_cause` (the earlier "Step 2"
variant).  Unlike the v2 classifier it takes a single optional script
path, matches script rules by equality *or* string-prefix, and also adds
the script's directory (`sp.rsplit("/", 1)[0] + "/"`) as a further
script-scope match target.  The source repeats the directory disjunct of
the data test twice; the repetition is kept verbatim. -/
def classify_cause (changed_files : List Str) (script_path : Option Str)
    (data_paths : List Str) : ClassifyResult :=
  let changed := changed_files.map (fun f => pyLstrip ['.', '/'] (pyReplaceBackslash f))
  let script_prefix_list : List Str :=
    match script_path with
    | none => []
    | some sp0 =>
        if sp0 = [] then []
        else
          let sp := pyLstrip ['.', '/'] (pyReplaceBackslash sp0)
          if sp.contains '/' then
            [sp, joinCh '/' ((splitCh '/' sp).dropLast) ++ ['/']]
          else [sp]
  let script_hit := changed.any (fun f =>
    script_prefix_list.any (fun p => decide (f = p) || p.isPrefixOf f))
  let data_hit := changed.any (fun f =>
    data_paths.any (fun dp =>
      decide (f = dp) || (pyRstrip ['/'] dp ++ ['/']).isPrefixOf f
        || (pyRstrip ['/'] dp ++ ['/']).isPrefixOf f))
  ⟨resolve_cause script_hit data_hit, script_hit, data_hit⟩

end Phase2Step2

namespace Phase2Step2

/-- One serialized CSV record: fields joined by commas plus the line
terminator (`csv.DictWriter` emits `"\r\n"`, which the reader normalizes;
modelled as `'\n'`). -/
def writeRow (fields : List Str) : Str :=
  joinCh ',' fields ++ ['\n']

/-- Serialization of a full table, header row first (`csv.DictWriter`
output for plain fields). -/
def csvWrite (rows : List (List Str)) : Str :=
  (rows.map writeRow).flatten

/-- Physical lines of a CSV document (the trailing empty piece produced
by a final line terminator is not a record). -/
def csvLines (s : Str) : List Str :=
  let ps := splitCh '\n' s
  if ps.getLast? = some [] then ps.dropLast else ps

/-- Parse in the style of `csv.DictReader` into rows of fields (plain,
unquoted fields). -/
def csvParse (s : Str) : List (List Str) :=
  (csvLines s).map (splitCh ',')

/-- Model of `r.get(k, "")` on a `csv.DictReader` row: the value in `row` at the
position of `k` in the header, `""` when the key is absent or the row is
short (`restval None` also serializes back to `""`). -/
def dictGet (hdr row : List Str) (k : Str) : Str :=
  match hdr.findIdx? (fun h => decide (h = k)) with
  | some i => row.getD i []
  | none => []

/-- Model of `row.get(k, "")` on the plain dict holding the new row values. -/
def assocGet (row : List (Str × Str)) (k : Str) : Str :=
  match row.find? (fun kv => decide (kv.1 = k)) with
  | some kv => kv.2
  | none => []

/-- A CSV field name that serializes losslessly in the plain (unquoted)
fragment of the format and anchors the `existing_csv.strip()` check:
nonempty, and free of separators and whitespace. -/
def plainField (f : Str) : Prop :=
  f ≠ [] ∧ ∀ c ∈ f, c ≠ ',' ∧ c ≠ '\n' ∧ isWs c = false

instance (f : Str) : Decidable (plainField f) :=
  decidable_of_iff (f ≠ [] ∧ ∀ c ∈ f, c ≠ ',' ∧ c ≠ '\n' ∧ isWs c = false) Iff.rfl

/-- Embedding of `phase2_step2.append_csv_row` (phase2_step1 wraps the
same logic behind an extra headerless-file check that is a no-op for any
well-formed multi-field document): rewrite the header to the current
`fieldnames`, re-emit every existing row mapped onto the current field
list via `r.get(k, "")`, and append the new row last. -/
def append_csv_row (existing_csv : Option Str) (row : List (Str × Str))
    (fieldnames : List Str) : Str :=
  let newRow := fieldnames.map (fun k => assocGet row k)
  let oldRows : List (List Str) :=
    match existing_csv with
    | none => []
    | some s =>
        if pyStrip s = [] then []
        else
          match csvParse s with
          | [] => []
          | hdr :: rows => rows.map (fun r => fieldnames.map (fun k => dictGet hdr r k))
  csvWrite (fieldnames :: (oldRows ++ [newRow]))

end Phase2Step2

namespace GenerateSummaryMd

/-- A CSV row as produced by the script's reader loop
(`{k: (v or "").strip() for k, v in r.items()}`): an association list of
header key to cell value. -/
abbrev Row : Type := List (Str × Str)

/-- Model of `r.get(k)` with a `None`/absent key collapsing to `""` (every use in
the script immediately applies `or ""`). -/
def rowGet (r : Row) (k : Str) : Str :=
  match r.find? (fun kv => decide (kv.1 = k)) with
  | some kv => kv.2
  | none => []

/-- The commit key used by the dedup pass:
`(r.get("commit_sha") or "").strip()`. -/
def shaOf (r : Row) : Str :=
  pyStrip (rowGet r ("commit_sha".toList))

/-- Embedding of `generate_summary_md.is_true`:
`(v or "").strip().lower() in ("yes", "true", "1")`. -/
def is_true (v : Str) : Bool :=
  let s := (pyStrip v).map Char.toLower
  decide (s = "yes".toList) || decide (s = "true".toList) || decide (s = "1".toList)

/-- The `for r in reversed(trained_rows_all)` body of the dedup pass:
walking the reversed list, keep the first row seen per nonempty
`commit_sha`, and keep every row whose `commit_sha` is empty. -/
def dedupeGo : List Row → List Str → List Row
  | [], _ => []
  | r :: rest, seen =>
      let sha := shaOf r
      if sha ≠ [] ∧ sha ∈ seen then dedupeGo rest seen
      else if sha ≠ [] then r :: dedupeGo rest (sha :: seen)
      else r :: dedupeGo rest seen

/-- Embedding of the `DEDUPE by commit_sha: keep latest row per commit`
pass of `generate_summary_md.main` (reverse, keep-first-seen, reverse
back). -/
def dedupe_by_commit_sha (rows : List Row) : List Row :=
  (dedupeGo rows.reverse []).reverse

/-- Code-point comparison of Python strings, as used by `list.sort`'s
default string ordering (Python's stable sort is modelled by the stable
`List.insertionSort`). -/
def strLe : Str → Str → Bool
  | [], _ => true
  | _ :: _, [] => false
  | a :: as, b :: bs =>
      if a < b then true else if b < a then false else strLe as bs

/-- Embedding of `generate_summary_md.parse_kv`: split on `;`, keep the
segments containing `=`, split each at the first `=`; the resulting
assoc list read right-to-left models the Python dict's
last-assignment-wins semantics (see `kvGet`). -/
def parse_kv (s : Str) : List (Str × Str) :=
  let s := pyStrip s
  if s = [] then []
  else
    (((splitCh ';' s).map pyStrip).filter (fun p => decide (p ≠ []))).filterMap
      (fun p =>
        if p.contains '=' then
          let k := p.takeWhile (fun c => decide (c ≠ '='))
          some (pyStrip k, pyStrip (p.drop (k.length + 1)))
        else none)

/-- Python `dict.get` on the assoc list built by `parse_kv`: the last
binding of a key wins. -/
def kvGet (m : List (Str × Str)) (k : Str) : Option Str :=
  match m.reverse.find? (fun kv => decide (kv.1 = k)) with
  | some kv => some kv.2
  | none => none

/-- Embedding of the script's `metric_from_row` helper:
`safe_float(parse_kv(r.get("mlflow_metrics_kv", "")).get(key))`.
`safe_float` itself wraps Python's `float()` literal parser — mechanical
I/O per the spec — so it is passed in abstractly as `sf` (with
`safe_float(None) = None` built in via `Option.bind`). -/
def metric_from_row (sf : Str → Option ℚ) (r : Row) (key : Str) : Option ℚ :=
  (kvGet (parse_kv (rowGet r ("mlflow_metrics_kv".toList))) key).bind sf

/-- Fragment of Python's `float()` literal parser sufficient for concrete
instances: a nonempty all-digit string parses to the corresponding
natural number (used to instantiate the abstract `sf` parameter on
concrete tables). -/
def floatOfDigits (s : Str) : Option ℚ :=
  if s ≠ [] ∧ ∀ c ∈ s, c.isDigit then
    some ((s.foldl (fun n c => n * 10 + (c.toNat - 48)) 0 : ℕ) : ℚ)
  else none

/-- The sorted-filtered-deduplicated sequence feeding Section 2:
`rows.sort(key=timestamp_local)`, keep `is_trained` rows, dedupe by
`commit_sha`. -/
def trained_rows (rows : List Row) : List Row :=
  dedupe_by_commit_sha
    ((List.insertionSort (fun a b =>
        strLe (rowGet a ("timestamp_local".toList)) (rowGet b ("timestamp_local".toList)) = true)
        rows).filter
      (fun r => is_true (rowGet r ("is_trained".toList))))

/-- Python `l[-n:]` for a nonnegative count (`l[-0:]` is the whole
list). -/
def pySliceLast (n : Nat) (l : List α) : List α :=
  if n = 0 then l else l.drop (l.length - n)

/-- One Section-2 trend point.  The script's dict also carries
presentation-only fields (branch, author, cause, duration, sha) that are
copied verbatim from the row and omitted here. -/
structure MetricPoint where
  ts : Str
  val : ℚ
  delta : ℚ
  sharp : Bool
  deriving Repr, DecidableEq

/-- The `for r in base` loop of Section 2: rows whose metrics map lacks
the key are skipped; the first retained point has delta 0 and is never
sharp; later points compare against the previously retained value. -/
def buildPoints (sf : Str → Option ℚ) (metric : Str) (sharp_delta : ℚ) :
    List Row → Option ℚ → List MetricPoint
  | [], _ => []
  | r :: rest, prev =>
      match metric_from_row sf r metric with
      | none => buildPoints sf metric sharp_delta rest prev
      | some v =>
          let d : ℚ := match prev with | none => 0 | some pv => v - pv
          let sharp : Bool :=
            match prev with | none => false | some pv => decide (sharp_delta ≤ |v - pv|)
          ⟨rowGet r ("timestamp_local".toList), v, d, sharp⟩
            :: buildPoints sf metric sharp_delta rest (some v)

/-- Embedding of the Section-2 point computation of
`generate_summary_md.main`: slice the last `window` trained,
deduplicated, time-sorted rows, then build points, skipping rows whose
metrics map lacks `metric`. -/
def section2_points (sf : Str → Option ℚ) (rows : List Row) (metric : Str)
    (window : Nat) (sharp_delta : ℚ) : List MetricPoint :=
  let tr := trained_rows rows
  let base := if tr = [] then [] else pySliceLast window tr
  buildPoints sf metric sharp_delta base none

/-- Round a rational to the nearest integer, ties to even — the rounding
used by Python's fixed/scientific float formatting (floats modelled as
exact rationals). -/
def roundHalfEven (q : ℚ) : ℤ :=
  let f := ⌊q⌋
  let r := q - f
  if r < 1/2 then f
  else if 1/2 < r then f + 1
  else if f % 2 = 0 then f else f + 1

/-- Exactly three decimal digits. -/
def pad3 (n : ℕ) : String :=
  String.mk [Nat.digitChar (n / 100 % 10), Nat.digitChar (n / 10 % 10), Nat.digitChar (n % 10)]

/-- Python `f"{q:.3f}"` on an exact rational. -/
def fmtFixed3 (q : ℚ) : String :=
  let n := (roundHalfEven (|q| * 1000)).toNat
  (if q < 0 then "-" else "") ++ toString (n / 1000) ++ "." ++ pad3 (n % 1000)

/-- Smallest `k ≥ start` with `a * 10 ^ k ≥ 1` (fuel-bounded search;
`fuel = a.den` suffices for any positive rational below one). -/
def sciExpDown (a : ℚ) : Nat → Nat → Nat
  | 0, k => k
  | fuel + 1, k => if 1 ≤ a * (10 : ℚ) ^ k then k else sciExpDown a fuel (k + 1)

/-- Smallest `e ≥ start` with `a < 10 ^ (e + 1)` (fuel-bounded search). -/
def sciExpUp (a : ℚ) : Nat → Nat → Nat
  | 0, e => e
  | fuel + 1, e => if a < (10 : ℚ) ^ (e + 1) then e else sciExpUp a fuel (e + 1)

/-- The exponent field of Python's `"e"` format: sign plus at least two
digits. -/
def expPart (e : ℤ) : String :=
  (if e < 0 then "-" else "+") ++ (if e.natAbs < 10 then "0" else "") ++ toString e.natAbs

/-- Python `f"{q:.1e}"` on an exact rational: one mantissa digit before
the point, one after, with the decimal carry `9.96… → 1.0e+…`
adjustment. -/
def fmtSci1 (q : ℚ) : String :=
  if q = 0 then "0.0e+00"
  else
    let a := |q|
    let e : ℤ :=
      if 1 ≤ a then Int.ofNat (sciExpUp a a.num.natAbs 0)
      else -Int.ofNat (sciExpDown a a.den 0)
    let m10 : ℚ := if 0 ≤ e then a * 10 / (10 : ℚ) ^ e.toNat else a * 10 * (10 : ℚ) ^ (-e).toNat
    let md := (roundHalfEven m10).toNat
    let md2 : ℕ := if 100 ≤ md then 10 else md
    let e2 : ℤ := if 100 ≤ md then e + 1 else e
    (if q < 0 then "-" else "")
      ++ String.mk [Nat.digitChar (md2 / 10 % 10), '.', Nat.digitChar (md2 % 10), 'e']
      ++ expPart e2

/-- Embedding of `generate_summary_md.fmt_val` on numeric input:
`f"{fx:.3f}" if abs(fx) >= 1e-3 or fx == 0 else f"{fx:.1e}"` (the
non-numeric fallback branch concerns unparseable strings and is outside
this model). -/
def fmt_val (q : ℚ) : String :=
  if 1 / 1000 ≤ |q| ∨ q = 0 then fmtFixed3 q else fmtSci1 q

end GenerateSummaryMd

namespace RenderSvg

/-- Embedding of `render_svg.median` (identical in
`render_val_accuracy_svg.py`): sort, return 0.0 for the empty list, the
middle element for odd length, the mean of the two middle elements for
even length. -/
def median (vals : List ℚ) : ℚ :=
  let s := List.insertionSort (· ≤ ·) vals
  let n := s.length
  if n = 0 then 0
  else if n % 2 = 1 then s.getD (n / 2) 0
  else (s.getD (n / 2 - 1) 0 + s.getD (n / 2) 0) / 2

/-- Python `needle in haystack` on strings. -/
def strContains (needle : Str) : Str → Bool
  | [] => needle.isPrefixOf []
  | h :: t => needle.isPrefixOf (h :: t) || strContains needle t

/-- Outcome of one `update_gist_file` attempt: success, or a
`RuntimeError` carrying the formatted `GitHub API error …` message. -/
inductive AttemptOutcome where
  | ok
  | err (msg : Str)
  deriving Repr, DecidableEq

/-- The `" 409 " in msg or "409 Conflict" in msg` conflict test of the
retry loop. -/
def isConflictMsg (m : Str) : Bool :=
  strContains (" 409 ".toList) m || strContains ("409 Conflict".toList) m

/-- Whether an attempt outcome is a retryable conflict (a `RuntimeError`
whose message passes the 409 test). -/
def isConflictOutcome : AttemptOutcome → Bool
  | .ok => false
  | .err m => isConflictMsg m

/-- The message carried by an error outcome (`""` for success; success
never reaches `last_err`). -/
def outcomeMsg : AttemptOutcome → Str
  | .ok => []
  | .err m => m

/-- Result of the upload retry loop: normal completion, an immediately
re-raised non-conflict error, or `raise last_err` after the loop. -/
inductive LoopResult where
  | success (attempts : Nat) (sleeps : List Nat)
  | fatal (msg : Str) (attempts : Nat) (sleeps : List Nat)
  | exhausted (lastMsg : Str) (sleeps : List Nat)
  deriving Repr, DecidableEq

/-- The `for attempt in range(6)` body of `render_svg.main`, with the
remaining iteration count as fuel, the current attempt index, the
`time.sleep(2 ** attempt)` delays performed so far, and `last_err`. -/
def retryGo (f : Nat → AttemptOutcome) : Nat → Nat → List Nat → Option Str → LoopResult
  | 0, _, sleeps, some m => .exhausted m sleeps
  | 0, i, sleeps, none => .success i sleeps
  | fuel + 1, i, sleeps, _ =>
      match f i with
      | .ok => .success (i + 1) sleeps
      | .err m =>
          if isConflictMsg m then retryGo f fuel (i + 1) (sleeps ++ [2 ^ i]) (some m)
          else .fatal m (i + 1) sleeps

/-- Embedding of the six-attempt upload retry loop of `render_svg.main`
(lines 224–240), with the attempted store write abstracted as the
outcome function `f`. -/
def upload_with_retry (f : Nat → AttemptOutcome) : LoopResult :=
  retryGo f 6 0 [] none

end RenderSvg

namespace Phase2Step2

/-- Embedding of the ledger-append store write of `phase2_step2.main`
(lines 422–424): after `append_csv_row` builds the new content,
`update_gist_file` is called exactly once, outside any `try`/`except`,
so the single attempt either succeeds or propagates its `RuntimeError`
— conflict or not — immediately; the read-modify-write cycle is never
retried there. -/
def ledger_write_once (outcome : RenderSvg.AttemptOutcome) : RenderSvg.LoopResult :=
  match outcome with
  | .ok => .success 1 []
  | .err m => .fatal m 1 []

end Phase2Step2

namespace DetectCauseMlops

/-- Unfolding lemma: the script-hit flag of `classify_cause` is the
exact-equality scan of the normalized changed files against the
normalized, slash-stripped script targets. -/
theorem classify_cause_script_hit (ch s d h : List Str) :
    (classify_cause ch s d h).script_hit
      = (ch.map (fun f => normalize_repo_rel_path f h)).any (fun f =>
          ((s.filter (fun sp => decide (sp ≠ []))).map
            (fun sp => pyRstrip ['/'] (normalize_repo_rel_path sp h))).any
            (fun p => decide (f = p))) := rfl

/-- Unfolding lemma: the verdict of `classify_cause` is `resolve_cause`
of its two flags. -/
theorem classify_cause_cause (ch s d h : List Str) :
    (classify_cause ch s d h).cause
      = resolve_cause (classify_cause ch s d h).script_hit
          (classify_cause ch s d h).data_hit := rfl

end DetectCauseMlops

/-- C3: the verdict of `detect_cause_mlops.classify_cause` is `Both`
exactly when both a script rule and a data rule hit, `Script` when only
script rules hit, `Data` when only data rules hit, and the `None` verdict
(encoded as `""`) otherwise; and classifying an empty changed set yields
the `None` verdict for any rule sets. -/
theorem c3_cause_resolution (changed scripts datas hints : List Str) :
    ((DetectCauseMlops.classify_cause changed scripts datas hints).cause = "Both"
      ↔ (DetectCauseMlops.classify_cause changed scripts datas hints).script_hit = true
        ∧ (DetectCauseMlops.classify_cause changed scripts datas hints).data_hit = true)
    ∧ ((DetectCauseMlops.classify_cause changed scripts datas hints).cause = "Script"
      ↔ (DetectCauseMlops.classify_cause changed scripts datas hints).script_hit = true
        ∧ (DetectCauseMlops.classify_cause changed scripts datas hints).data_hit = false)
    ∧ ((DetectCauseMlops.classify_cause changed scripts datas hints).cause = "Data"
      ↔ (DetectCauseMlops.classify_cause changed scripts datas hints).script_hit = false
        ∧ (DetectCauseMlops.classify_cause changed scripts datas hints).data_hit = true)
    ∧ ((DetectCauseMlops.classify_cause changed scripts datas hints).cause = ""
      ↔ (DetectCauseMlops.classify_cause changed scripts datas hints).script_hit = false
        ∧ (DetectCauseMlops.classify_cause changed scripts datas hints).data_hit = false)
    ∧ (DetectCauseMlops.classify_cause [] scripts datas hints).cause = "" := by
  refine ⟨?_, ?_, ?_, ?_, rfl⟩ <;>
    · rw [DetectCauseMlops.classify_cause_cause]
      cases hs : (DetectCauseMlops.classify_cause changed scripts datas hints).script_hit <;>
        cases hd : (DetectCauseMlops.classify_cause changed scripts datas hints).data_hit <;>
          decide

/-- C5 (code bug): `p.lstrip("./")` strips the character set dot-slash, so
`"../demo/x/y"` has already lost its `"../"` prefix before the
drop-two-segments branch is tested; with no repo hints the code returns
`"demo/x/y"`, not the `"x/y"` the spec (and the function's own docstring)
promise. -/
theorem c5_lstrip_failing_input :
    DetectCauseMlops.normalize_repo_rel_path ("../demo/x/y".toList) [] = "demo/x/y".toList
    ∧ DetectCauseMlops.normalize_repo_rel_path ("../demo/x/y".toList) [] ≠ "x/y".toList := by
  exact ⟨by decide, by decide⟩

/-- C2 counterexample: the claim quantifies over both cited
`classify_cause` implementations, but in `phase2_step2.classify_cause`
the changed file `src/train.py`, strictly inside the directory named by
the script rule `src/`, does set `script_hit` and does yield the
`Script` verdict (the variant matches script rules by string prefix). -/
theorem c2_phase2_dir_rule_counterexample :
    (Phase2Step2.classify_cause ["src/train.py".toList] (some "src/".toList) []).script_hit
        = true
    ∧ (Phase2Step2.classify_cause ["src/train.py".toList] (some "src/".toList) []).cause
        = "Script" := by
  exact ⟨by decide, by decide⟩

/-- C2 (amended): in `detect_cause_mlops.classify_cause` a script hit
requires exact path equality after normalization (so a changed file that
merely differs from every normalized, slash-stripped script target — in
particular one strictly inside a rule's directory — never sets
`script_hit` and never yields the `Script` or `Both` verdict); the
legacy `phase2_step2.classify_cause` instead treats the script path and
its directory as prefixes. -/
theorem c2_script_exact_match (changed scripts datas hints : List Str)
    (h : ∀ f ∈ changed, ∀ s ∈ scripts, s ≠ [] →
      DetectCauseMlops.normalize_repo_rel_path f hints
        ≠ pyRstrip ['/'] (DetectCauseMlops.normalize_repo_rel_path s hints)) :
    (DetectCauseMlops.classify_cause changed scripts datas hints).script_hit = false
    ∧ (DetectCauseMlops.classify_cause changed scripts datas hints).cause ≠ "Script"
    ∧ (DetectCauseMlops.classify_cause changed scripts datas hints).cause ≠ "Both" := by
  have hhit : (DetectCauseMlops.classify_cause changed scripts datas hints).script_hit
      = false := by
    rw [DetectCauseMlops.classify_cause_script_hit]
    rw [List.any_eq_false]
    intro f hf
    rw [Bool.not_eq_true, List.any_eq_false]
    intro p hp
    obtain ⟨f0, hf0, rfl⟩ := List.mem_map.mp hf
    obtain ⟨s0, hs0, rfl⟩ := List.mem_map.mp hp
    obtain ⟨hs0m, hs0ne⟩ := List.mem_filter.mp hs0
    simp only [decide_eq_true_eq] at hs0ne ⊢
    exact h f0 hf0 s0 hs0m hs0ne
  refine ⟨hhit, ?_, ?_⟩ <;>
    · rw [DetectCauseMlops.classify_cause_cause, hhit]
      cases (DetectCauseMlops.classify_cause changed scripts datas hints).data_hit <;> decide

/-- Witness for `c2_script_exact_match` at the claim's own example:
changed file `src/train.py`, script rule `src/`, no data rules, no
hints. -/
theorem c2_script_exact_match_witness :
    (DetectCauseMlops.classify_cause ["src/train.py".toList] ["src/".toList] [] []).script_hit
        = false
    ∧ (DetectCauseMlops.classify_cause ["src/train.py".toList] ["src/".toList] [] []).cause
        ≠ "Script"
    ∧ (DetectCauseMlops.classify_cause ["src/train.py".toList] ["src/".toList] [] []).cause
        ≠ "Both" :=
  c2_script_exact_match ["src/train.py".toList] ["src/".toList] [] [] (by decide)

/-- A `dropWhile` leaves a list untouched when no element satisfies the
predicate. -/
theorem dropWhile_eq_self_of_forall {α : Type} {p : α → Bool} :
    ∀ {l : List α}, (∀ c ∈ l, p c = false) → l.dropWhile p = l
  | [], _ => rfl
  | a :: t, h => by
      rw [List.dropWhile_cons, h a (List.mem_cons_self a t)]
      simp

/-- The head of a `dropWhile` result fails the predicate. -/
theorem dropWhile_head_false {α : Type} {p : α → Bool} :
    ∀ {l : List α} {c : α} {cs : List α}, l.dropWhile p = c :: cs → p c = false := by
  intro l
  induction l with
  | nil => intro c cs h; simp at h
  | cons a t ih =>
      intro c cs h
      rw [List.dropWhile_cons] at h
      by_cases hpa : p a = true
      · rw [if_pos hpa] at h
        exact ih h
      · rw [if_neg hpa] at h
        cases h
        simpa using hpa

/-- A `dropWhile` pass is idempotent. -/
theorem dropWhile_idem {α : Type} {p : α → Bool} {l : List α} :
    (l.dropWhile p).dropWhile p = l.dropWhile p := by
  cases hd : l.dropWhile p with
  | nil => rfl
  | cons c cs =>
      rw [List.dropWhile_cons, dropWhile_head_false hd]
      simp

namespace DetectCauseMlops

/-- Characters surviving `pyReplaceBackslash` are slash-substituted:
never a backslash, and non-whitespace whenever the input was. -/
theorem mem_pyReplaceBackslash {p : Str} (h : ∀ c ∈ p, isWs c = false) :
    ∀ c ∈ pyReplaceBackslash p, c ≠ '\\' ∧ isWs c = false := by
  intro c hc
  obtain ⟨a, ha, rfl⟩ := List.mem_map.mp hc
  by_cases hb : a = '\\'
  · subst hb
    exact ⟨by decide, by decide⟩
  · rw [if_neg hb]
    exact ⟨hb, h a ha⟩

/-- With whitespace-free input the `strip()` step of
`normalize_repo_rel_path` is the identity. -/
theorem pyStrip_eq_self {s : Str} (h : ∀ c ∈ s, isWs c = false) : pyStrip s = s := by
  unfold pyStrip
  rw [dropWhile_eq_self_of_forall h,
    dropWhile_eq_self_of_forall (fun c hc => h c (List.mem_reverse.mp hc)),
    List.reverse_reverse]

/-- A normalized path (over whitespace-free input) is exactly the
dot-slash-stripped backslash-replaced input: the `../` branch is dead
(the character-set `lstrip` has already removed any leading dots) and
with no repo hints the hint loop is the identity. -/
theorem normalize_no_hints_eq {q : Str} (h : ∀ c ∈ q, isWs c = false) :
    normalize_repo_rel_path q [] = pyLstrip ['.', '/'] (pyReplaceBackslash q) := by
  unfold normalize_repo_rel_path
  rw [pyStrip_eq_self (fun c hc => (mem_pyReplaceBackslash h c hc).2)]
  have hbr : (['.', '.', '/'].isPrefixOf (pyLstrip ['.', '/'] (pyReplaceBackslash q))) = false := by
    cases hq : pyLstrip ['.', '/'] (pyReplaceBackslash q) with
    | nil => rfl
    | cons c cs =>
        have hc : (['.', '/'] : List Char).contains c = false := by
          exact dropWhile_head_false hq
        have hcd : c ≠ '.' := by
          intro hcc
          subst hcc
          simp [List.contains] at hc
        have hcd2 : ('.' == c) = false :=
          beq_eq_false_iff_ne.mpr (fun hcc => hcd hcc.symm)
        simp [List.isPrefixOf, hcd2]
  simp [hbr, normalize_repo_rel_path.stripHints]

end DetectCauseMlops

/-- C6 counterexample: normalization is not idempotent — with repo hint
`repo`, the path `repo/repo/x` normalizes to `repo/x`, and normalizing
that again strips the freshly exposed hint prefix and yields `x`. -/
theorem c6_idempotence_counterexample :
    DetectCauseMlops.normalize_repo_rel_path
        (DetectCauseMlops.normalize_repo_rel_path ("repo/repo/x".toList) ["repo".toList])
        ["repo".toList]
      ≠ DetectCauseMlops.normalize_repo_rel_path ("repo/repo/x".toList) ["repo".toList] := by
  decide

/-- C6 (amended): `normalize_repo_rel_path` is idempotent when the repo
hint set is empty and the path contains no whitespace (a nonempty hint
set can strip a freshly exposed hint prefix on the second pass, and
hint-stripping or dot-slash-stripping can expose leading whitespace that
only the second pass's `strip()` removes). -/
theorem c6_normalize_idempotent_no_hints (p : Str) (h : ∀ c ∈ p, isWs c = false) :
    DetectCauseMlops.normalize_repo_rel_path (DetectCauseMlops.normalize_repo_rel_path p []) []
      = DetectCauseMlops.normalize_repo_rel_path p [] := by
  have h1 := DetectCauseMlops.normalize_no_hints_eq h
  have hmem : ∀ c ∈ DetectCauseMlops.normalize_repo_rel_path p [], c ≠ '\\' ∧ isWs c = false := by
    intro c hc
    rw [h1] at hc
    exact DetectCauseMlops.mem_pyReplaceBackslash h c
      ((List.dropWhile_sublist _).mem hc)
  have h2 := DetectCauseMlops.normalize_no_hints_eq
    (q := DetectCauseMlops.normalize_repo_rel_path p []) (fun c hc => (hmem c hc).2)
  rw [h2]
  have hrepl : pyReplaceBackslash (DetectCauseMlops.normalize_repo_rel_path p [])
      = DetectCauseMlops.normalize_repo_rel_path p [] := by
    unfold pyReplaceBackslash
    rw [List.map_congr_left (g := id) (fun a ha => by simp [(hmem a ha).1]), List.map_id]
  rw [hrepl, h1]
  exact dropWhile_idem

/-- Witness for `c6_normalize_idempotent_no_hints` at the concrete path
`src/train.py`. -/
theorem c6_normalize_idempotent_no_hints_witness :
    DetectCauseMlops.normalize_repo_rel_path
        (DetectCauseMlops.normalize_repo_rel_path ("src/train.py".toList) []) []
      = DetectCauseMlops.normalize_repo_rel_path ("src/train.py".toList) [] :=
  c6_normalize_idempotent_no_hints ("src/train.py".toList) (by decide)


namespace GenerateSummaryMd

/-- The dedup pass only discards rows: its output is a sublist of its
input. -/
theorem dedupeGo_sublist : ∀ (l : List Row) (seen : List Str),
    (dedupeGo l seen).Sublist l := by
  intro l
  induction l with
  | nil => intro seen; simp [dedupeGo]
  | cons r t ih =>
      intro seen
      simp only [dedupeGo]
      split_ifs with h1 h2
      · exact (ih seen).trans (List.sublist_cons_self r t)
      · exact (ih _).cons₂ r
      · exact (ih seen).cons₂ r

/-- Once a nonempty sha is recorded as seen, no row with that sha
survives the rest of the pass. -/
theorem dedupeGo_filter_of_mem {s : Str} (hs : s ≠ []) :
    ∀ (l : List Row) (seen : List Str), s ∈ seen →
      (dedupeGo l seen).filter (fun r => decide (shaOf r = s)) = [] := by
  intro l
  induction l with
  | nil => intro seen _; simp [dedupeGo]
  | cons r t ih =>
      intro seen hmem
      simp only [dedupeGo]
      split_ifs with h1 h2
      · exact ih seen hmem
      · have hne : ¬(shaOf r = s) := fun he => h1 ⟨h2, he ▸ hmem⟩
        rw [List.filter_cons, if_neg (by simpa using hne)]
        exact ih _ (List.mem_cons_of_mem _ hmem)
      · have h3 : shaOf r = [] := not_not.mp h2
        have hne : ¬(shaOf r = s) := by rw [h3]; exact fun he => hs he.symm
        rw [List.filter_cons, if_neg (by simpa using hne)]
        exact ih seen hmem

/-- Over the reversed table, the pass keeps exactly the first row per
nonempty sha not yet seen. -/
theorem dedupeGo_filter_of_not_mem {s : Str} (hs : s ≠ []) :
    ∀ (l : List Row) (seen : List Str), s ∉ seen →
      (dedupeGo l seen).filter (fun r => decide (shaOf r = s))
        = (l.filter (fun r => decide (shaOf r = s))).take 1 := by
  intro l
  induction l with
  | nil => intro seen _; simp [dedupeGo]
  | cons r t ih =>
      intro seen hmem
      simp only [dedupeGo]
      split_ifs with h1 h2
      · have hne : ¬(shaOf r = s) := fun he => hmem (he ▸ h1.2)
        rw [ih seen hmem, List.filter_cons, if_neg (by simpa using hne)]
      · by_cases he : shaOf r = s
        · rw [List.filter_cons, if_pos (by simpa using he),
            List.filter_cons, if_pos (by simpa using he)]
          rw [dedupeGo_filter_of_mem hs t _ (by rw [he]; exact List.mem_cons_self _ _)]
          simp
        · rw [List.filter_cons, if_neg (by simpa using he),
            List.filter_cons, if_neg (by simpa using he)]
          refine ih _ ?_
          intro hmem2
          rcases List.mem_cons.mp hmem2 with h | h
          · exact he h.symm
          · exact hmem h
      · have h3 : shaOf r = [] := not_not.mp h2
        have hne : ¬(shaOf r = s) := by rw [h3]; exact fun he => hs he.symm
        rw [List.filter_cons, if_neg (by simpa using hne),
          List.filter_cons, if_neg (by simpa using hne)]
        exact ih seen hmem

/-- Rows with an empty sha are never deduplicated. -/
theorem dedupeGo_filter_nil :
    ∀ (l : List Row) (seen : List Str),
      (dedupeGo l seen).filter (fun r => decide (shaOf r = []))
        = l.filter (fun r => decide (shaOf r = [])) := by
  intro l
  induction l with
  | nil => intro seen; simp [dedupeGo]
  | cons r t ih =>
      intro seen
      simp only [dedupeGo]
      split_ifs with h1 h2
      · rw [ih seen, List.filter_cons, if_neg (by simpa using h1.1)]
      · rw [List.filter_cons, if_neg (by simpa using h2),
          List.filter_cons, if_neg (by simpa using h2)]
        exact ih _
      · have h3 : shaOf r = [] := not_not.mp h2
        rw [List.filter_cons, if_pos (by simpa using h3),
          List.filter_cons, if_pos (by simpa using h3)]
        rw [ih seen]

end GenerateSummaryMd

/-- C1 counterexample: deduplicating rows with commit shas `A, B, A`
keeps the rows in order `B, A` — the relative order of the *last*
occurrence of each distinct key — whereas the claim's
first-appearance order would be `A, B`. -/
theorem c1_dedupe_order_counterexample :
    (GenerateSummaryMd.dedupe_by_commit_sha
        [[("commit_sha".toList, "A".toList)],
         [("commit_sha".toList, "B".toList)],
         [("commit_sha".toList, "A".toList), ("x".toList, "2".toList)]]).map
        GenerateSummaryMd.shaOf
      = ["B".toList, "A".toList]
    ∧ (GenerateSummaryMd.dedupe_by_commit_sha
        [[("commit_sha".toList, "A".toList)],
         [("commit_sha".toList, "B".toList)],
         [("commit_sha".toList, "A".toList), ("x".toList, "2".toList)]]).map
        GenerateSummaryMd.shaOf
      ≠ ["A".toList, "B".toList] := by
  exact ⟨by decide, by decide⟩

/-- C1 (amended): for every ledger table, read-side deduplication keeps,
for each distinct *nonempty* `commit_sha`, exactly the last-appended row
with that sha; the kept rows form a sublist of the table (so they appear
in the relative order of the last occurrence of their keys); rows with
an empty `commit_sha` are all kept; and appending two rows with the same
nonempty `commit_sha` and then deduplicating yields exactly the second
row. -/
theorem c1_dedupe_keeps_last_per_sha (rows : List GenerateSummaryMd.Row) (s : Str) :
    (s ≠ [] →
      (GenerateSummaryMd.dedupe_by_commit_sha rows).filter
          (fun r => decide (GenerateSummaryMd.shaOf r = s))
        = ((rows.filter (fun r => decide (GenerateSummaryMd.shaOf r = s))).getLast?).toList)
    ∧ (GenerateSummaryMd.dedupe_by_commit_sha rows).Sublist rows
    ∧ (GenerateSummaryMd.dedupe_by_commit_sha rows).filter
          (fun r => decide (GenerateSummaryMd.shaOf r = []))
        = rows.filter (fun r => decide (GenerateSummaryMd.shaOf r = []))
    ∧ (∀ r1 r2 : GenerateSummaryMd.Row,
        GenerateSummaryMd.shaOf r1 ≠ [] →
        GenerateSummaryMd.shaOf r1 = GenerateSummaryMd.shaOf r2 →
        GenerateSummaryMd.dedupe_by_commit_sha [r1, r2] = [r2]) := by
  refine ⟨?_, ?_, ?_, ?_⟩
  · intro hs
    unfold GenerateSummaryMd.dedupe_by_commit_sha
    rw [List.filter_reverse,
      GenerateSummaryMd.dedupeGo_filter_of_not_mem hs rows.reverse [] (by simp),
      List.filter_reverse, List.take_one, List.head?_reverse]
    cases (rows.filter (fun r => decide (GenerateSummaryMd.shaOf r = s))).getLast? <;> simp
  · unfold GenerateSummaryMd.dedupe_by_commit_sha
    have h2 := (GenerateSummaryMd.dedupeGo_sublist rows.reverse []).reverse
    simpa using h2
  · unfold GenerateSummaryMd.dedupe_by_commit_sha
    rw [List.filter_reverse, GenerateSummaryMd.dedupeGo_filter_nil,
      List.filter_reverse, List.reverse_reverse]
  · intro r1 r2 h1 heq
    have h2 : GenerateSummaryMd.shaOf r2 ≠ [] := heq ▸ h1
    unfold GenerateSummaryMd.dedupe_by_commit_sha
    simp [GenerateSummaryMd.dedupeGo, h1, h2, heq]

/-- Witness for `c1_dedupe_keeps_last_per_sha` on a concrete table with
shas `A, B, A` and key `A`. -/
theorem c1_dedupe_keeps_last_per_sha_witness :
    (GenerateSummaryMd.dedupe_by_commit_sha
        [[("commit_sha".toList, "A".toList)],
         [("commit_sha".toList, "B".toList)],
         [("commit_sha".toList, "A".toList), ("x".toList, "2".toList)]]).filter
        (fun r => decide (GenerateSummaryMd.shaOf r = "A".toList))
      = (([[("commit_sha".toList, "A".toList)],
          [("commit_sha".toList, "B".toList)],
          [("commit_sha".toList, "A".toList), ("x".toList, "2".toList)]].filter
            (fun r => decide (GenerateSummaryMd.shaOf r = "A".toList))).getLast?).toList
    ∧ GenerateSummaryMd.dedupe_by_commit_sha
        [[("commit_sha".toList, "A".toList)], [("commit_sha".toList, "A".toList), ("x".toList, "2".toList)]]
      = [[("commit_sha".toList, "A".toList), ("x".toList, "2".toList)]] := by
  have h := c1_dedupe_keeps_last_per_sha
    [[("commit_sha".toList, "A".toList)],
     [("commit_sha".toList, "B".toList)],
     [("commit_sha".toList, "A".toList), ("x".toList, "2".toList)]] ("A".toList)
  exact ⟨h.1 (by decide),
    h.2.2.2 [("commit_sha".toList, "A".toList)]
      [("commit_sha".toList, "A".toList), ("x".toList, "2".toList)] (by decide) (by decide)⟩

namespace GenerateSummaryMd

/-- The values of the points built from a row block are exactly the
metric values of the rows that carry the metric, in order. -/
theorem buildPoints_map_val (sf : Str → Option ℚ) (metric : Str) (sharp_delta : ℚ) :
    ∀ (base : List Row) (prev : Option ℚ),
      (buildPoints sf metric sharp_delta base prev).map (fun p => p.val)
        = base.filterMap (fun r => metric_from_row sf r metric) := by
  intro base
  induction base with
  | nil => intro prev; simp [buildPoints]
  | cons r t ih =>
      intro prev
      simp only [buildPoints]
      cases hm : metric_from_row sf r metric <;>
        simp [hm, ih, List.filterMap_cons]

/-- The slice `l[-n:]` has at most `n` elements for positive `n`. -/
theorem pySliceLast_length_le {α : Type} (n : Nat) (hn : 0 < n) (l : List α) :
    (pySliceLast n l).length ≤ n := by
  unfold pySliceLast
  rw [if_neg (Nat.pos_iff_ne_zero.mp hn)]
  simp
  omega

end GenerateSummaryMd

/-- C4 counterexample: with window 1 and two trained rows — the older
carrying the metric, the newer lacking it — the code slices the window
first and then skips the metric-less row, producing no points at all,
whereas the claim (window slots consumed only by metric-carrying rows)
predicts the older row's point. -/
theorem c4_window_counterexample :
    GenerateSummaryMd.section2_points GenerateSummaryMd.floatOfDigits
        [[("timestamp_local".toList, "2024-01-01".toList), ("commit_sha".toList, "A".toList),
          ("is_trained".toList, "yes".toList), ("mlflow_metrics_kv".toList, "acc=1".toList)],
         [("timestamp_local".toList, "2024-01-02".toList), ("commit_sha".toList, "B".toList),
          ("is_trained".toList, "yes".toList), ("mlflow_metrics_kv".toList, "loss=2".toList)]]
        ("acc".toList) 1 (15 / 100)
      = []
    ∧ (GenerateSummaryMd.metric_from_row GenerateSummaryMd.floatOfDigits
        [("timestamp_local".toList, "2024-01-01".toList), ("commit_sha".toList, "A".toList),
         ("is_trained".toList, "yes".toList), ("mlflow_metrics_kv".toList, "acc=1".toList)]
        ("acc".toList)).isSome = true := by
  exact ⟨by decide, by decide⟩

/-- C4 (amended): the window slice of size N is taken over the trained,
deduplicated, time-sorted rows *before* the metric filter, and rows
inside the slice whose metrics map lacks the key are then skipped when
building points — so at most N points result, and possibly fewer than N
even when older rows outside the slice carry the metric. -/
theorem c4_window_slice_amended (sf : Str → Option ℚ) (rows : List GenerateSummaryMd.Row)
    (metric : Str) (window : Nat) (sharp_delta : ℚ) :
    (GenerateSummaryMd.section2_points sf rows metric window sharp_delta).map (fun p => p.val)
      = (if GenerateSummaryMd.trained_rows rows = [] then []
          else GenerateSummaryMd.pySliceLast window (GenerateSummaryMd.trained_rows rows)).filterMap
          (fun r => GenerateSummaryMd.metric_from_row sf r metric)
    ∧ (0 < window →
        (GenerateSummaryMd.section2_points sf rows metric window sharp_delta).length ≤ window) := by
  constructor
  · exact GenerateSummaryMd.buildPoints_map_val sf metric sharp_delta _ none
  · intro hw
    have hmap := GenerateSummaryMd.buildPoints_map_val sf metric sharp_delta
      (if GenerateSummaryMd.trained_rows rows = [] then []
        else GenerateSummaryMd.pySliceLast window (GenerateSummaryMd.trained_rows rows)) none
    have hlen : (GenerateSummaryMd.section2_points sf rows metric window sharp_delta).length
        = ((if GenerateSummaryMd.trained_rows rows = [] then []
            else GenerateSummaryMd.pySliceLast window (GenerateSummaryMd.trained_rows rows)).filterMap
            (fun r => GenerateSummaryMd.metric_from_row sf r metric)).length := by
      have := congrArg List.length hmap
      simpa using this
    rw [hlen]
    refine le_trans (List.length_filterMap_le _ _) ?_
    by_cases htr : GenerateSummaryMd.trained_rows rows = []
    · simp [htr]
    · rw [if_neg htr]
      exact GenerateSummaryMd.pySliceLast_length_le window hw _

/-- Witness for `c4_window_slice_amended` on the counterexample table
with window 1. -/
theorem c4_window_slice_amended_witness :
    (GenerateSummaryMd.section2_points GenerateSummaryMd.floatOfDigits
        [[("timestamp_local".toList, "2024-01-01".toList), ("commit_sha".toList, "A".toList),
          ("is_trained".toList, "yes".toList), ("mlflow_metrics_kv".toList, "acc=1".toList)]]
        ("acc".toList) 1 (15 / 100)).map (fun p => p.val)
      = (if GenerateSummaryMd.trained_rows
            [[("timestamp_local".toList, "2024-01-01".toList), ("commit_sha".toList, "A".toList),
              ("is_trained".toList, "yes".toList), ("mlflow_metrics_kv".toList, "acc=1".toList)]] = []
          then []
          else GenerateSummaryMd.pySliceLast 1 (GenerateSummaryMd.trained_rows
            [[("timestamp_local".toList, "2024-01-01".toList), ("commit_sha".toList, "A".toList),
              ("is_trained".toList, "yes".toList), ("mlflow_metrics_kv".toList, "acc=1".toList)]])).filterMap
          (fun r => GenerateSummaryMd.metric_from_row GenerateSummaryMd.floatOfDigits r ("acc".toList))
    ∧ (GenerateSummaryMd.section2_points GenerateSummaryMd.floatOfDigits
        [[("timestamp_local".toList, "2024-01-01".toList), ("commit_sha".toList, "A".toList),
          ("is_trained".toList, "yes".toList), ("mlflow_metrics_kv".toList, "acc=1".toList)]]
        ("acc".toList) 1 (15 / 100)).length ≤ 1 := by
  have h := c4_window_slice_amended GenerateSummaryMd.floatOfDigits
    [[("timestamp_local".toList, "2024-01-01".toList), ("commit_sha".toList, "A".toList),
      ("is_trained".toList, "yes".toList), ("mlflow_metrics_kv".toList, "acc=1".toList)]]
    ("acc".toList) 1 (15 / 100)
  exact ⟨h.1, h.2 (by decide)⟩

/-- C10: `median` is total — the empty list yields 0.0 rather than an
error — and is a genuine median: it is invariant under permutation of
its input, returns an element of the list for odd lengths, and averages
the two middle elements of the sorted list for even lengths
(`median [1,4,2,3] = (2+3)/2`). -/
theorem c10_median_total :
    RenderSvg.median [] = 0
    ∧ (∀ l l' : List ℚ, l.Perm l' → RenderSvg.median l = RenderSvg.median l')
    ∧ (∀ l : List ℚ, l.length % 2 = 1 → RenderSvg.median l ∈ l)
    ∧ RenderSvg.median [1, 4, 2, 3] = 5 / 2 := by
  refine ⟨rfl, ?_, ?_, ?_⟩
  · intro l l' hperm
    have hsort : List.insertionSort (· ≤ ·) l = List.insertionSort (· ≤ ·) l' := by
      have hp : (List.insertionSort (· ≤ ·) l).Perm (List.insertionSort (· ≤ ·) l') :=
        (List.perm_insertionSort _ l).trans (hperm.trans (List.perm_insertionSort _ l').symm)
      exact List.eq_of_perm_of_sorted hp (List.sorted_insertionSort _ l)
        (List.sorted_insertionSort _ l')
    unfold RenderSvg.median
    rw [hsort]
  · intro l hodd
    have hperm := List.perm_insertionSort (· ≤ ·) l
    have hlen : (List.insertionSort (· ≤ ·) l).length = l.length := hperm.length_eq
    have hne : l.length ≠ 0 := by
      intro h0
      rw [h0] at hodd
      simp at hodd
    have hidx : l.length / 2 < (List.insertionSort (· ≤ ·) l).length := by
      rw [hlen]
      exact Nat.div_lt_self (Nat.pos_of_ne_zero hne) one_lt_two
    simp only [RenderSvg.median]
    rw [hlen, if_neg hne, if_pos hodd, List.getD_eq_getElem _ _ hidx]
    exact hperm.mem_iff.mp (List.getElem_mem _)
  · have hs : List.insertionSort (· ≤ ·) [(1:ℚ), 4, 2, 3] = [1, 2, 3, 4] := by
      have hp : (List.insertionSort (· ≤ ·) [(1:ℚ), 4, 2, 3]).Perm [1, 2, 3, 4] :=
        (List.perm_insertionSort _ _).trans (by decide)
      exact List.eq_of_perm_of_sorted hp (List.sorted_insertionSort _ _) (by decide)
    simp only [RenderSvg.median]
    rw [hs]
    norm_num [List.getD]

/-- Witness for `c10_median_total` at the permutation `[3,1,2] ~ [1,2,3]`
and the odd-length list `[3,1,2]`. -/
theorem c10_median_total_witness :
    RenderSvg.median [3, 1, 2] = RenderSvg.median [1, 2, 3]
    ∧ RenderSvg.median [3, 1, 2] ∈ ([3, 1, 2] : List ℚ) := by
  have h := c10_median_total
  exact ⟨h.2.1 [3, 1, 2] [1, 2, 3] (by decide), h.2.2.1 [3, 1, 2] (by decide)⟩

/-- A decimal digit character is a digit. -/
theorem digitChar_mod10_isDigit (n : ℕ) : (Nat.digitChar (n % 10)).isDigit = true := by
  have h : n % 10 < 10 := Nat.mod_lt _ (by norm_num)
  set m := n % 10 with hm
  interval_cases m <;> decide

namespace GenerateSummaryMd

/-- The fuel-bounded exponent search returns the least `k` with
`a * 10 ^ k ≥ 1` whenever that least `k` is within the fuel. -/
theorem sciExpDown_eq_least (a : ℚ) (k0 : ℕ)
    (hk : 1 ≤ a * 10 ^ k0) (hmin : ∀ j, j < k0 → ¬ 1 ≤ a * 10 ^ j)
    (hden : k0 ≤ a.den) :
    sciExpDown a a.den 0 = k0 := by
  have main : ∀ (fuel k : ℕ), k ≤ k0 → k0 ≤ k + fuel →
      sciExpDown a fuel k = k0 := by
    intro fuel
    induction fuel with
    | zero =>
        intro k h1 h2
        have hkk : k = k0 := by omega
        simp [sciExpDown, hkk]
    | succ f ih =>
        intro k h1 h2
        by_cases hK : 1 ≤ a * 10 ^ k
        · have hkk : k = k0 := by
            rcases Nat.lt_or_ge k k0 with h | h
            · exact absurd hK (hmin k h)
            · omega
          simp only [sciExpDown]
          rw [if_pos hK]
          exact hkk
        · have hkk : k < k0 := by
            rcases Nat.lt_or_ge k k0 with h | h
            · exact h
            · have hke : k = k0 := by omega
              rw [hke] at hK
              exact absurd hk hK
          simp only [sciExpDown]
          rw [if_neg hK]
          exact ih (k + 1) (by omega) (by omega)
  exact main a.den 0 (Nat.zero_le _) (by omega)

end GenerateSummaryMd

/-- C9: `fmt_val` renders with exactly 3 decimal digits when
`abs(v) ≥ 1e-3` or `v = 0` (sign, integer part, a dot, then a
three-digit fraction), and otherwise uses the `.1e` scientific form
(one mantissa digit, a dot, one mantissa digit, `e`, exponent); in
particular `fmt_val 0.123456 = "0.123"` and
`fmt_val 0.0005 = "5.0e-04"`. -/
theorem c9_fmt_val_policy :
    (∀ v : ℚ, 1 / 1000 ≤ |v| ∨ v = 0 →
      GenerateSummaryMd.fmt_val v
          = (if v < 0 then "-" else "")
            ++ toString ((GenerateSummaryMd.roundHalfEven (|v| * 1000)).toNat / 1000)
            ++ "." ++ GenerateSummaryMd.pad3 ((GenerateSummaryMd.roundHalfEven (|v| * 1000)).toNat % 1000)
        ∧ (GenerateSummaryMd.pad3 ((GenerateSummaryMd.roundHalfEven (|v| * 1000)).toNat % 1000)).length = 3
        ∧ (GenerateSummaryMd.pad3 ((GenerateSummaryMd.roundHalfEven (|v| * 1000)).toNat % 1000)).toList.all
            Char.isDigit = true)
    ∧ (∀ v : ℚ, |v| < 1 / 1000 → v ≠ 0 →
        GenerateSummaryMd.fmt_val v = GenerateSummaryMd.fmtSci1 v
        ∧ ∃ (a b : Char) (ex : String),
            GenerateSummaryMd.fmt_val v
              = (if v < 0 then "-" else "") ++ String.mk [a, '.', b, 'e'] ++ ex
            ∧ a.isDigit = true ∧ b.isDigit = true)
    ∧ GenerateSummaryMd.fmt_val (123456 / 1000000) = "0.123"
    ∧ GenerateSummaryMd.fmt_val (5 / 10000) = "5.0e-04" := by
  refine ⟨?_, ?_, ?_, ?_⟩
  · intro v hv
    refine ⟨?_, rfl, ?_⟩
    · simp only [GenerateSummaryMd.fmt_val]
      rw [if_pos hv]
      rfl
    · simp only [GenerateSummaryMd.pad3, String.toList, List.all_cons, List.all_nil,
        digitChar_mod10_isDigit]
      rfl
  · intro v h1 h2
    have hf : GenerateSummaryMd.fmt_val v = GenerateSummaryMd.fmtSci1 v := by
      simp only [GenerateSummaryMd.fmt_val]
      rw [if_neg (not_or.mpr ⟨not_le.mpr h1, h2⟩)]
    refine ⟨hf, ?_⟩
    rw [hf]
    simp only [GenerateSummaryMd.fmtSci1]
    rw [if_neg h2]
    exact ⟨_, _, _, rfl, digitChar_mod10_isDigit _, digitChar_mod10_isDigit _⟩
  · have habs : |((123456:ℚ) / 1000000)| = 123456 / 1000000 := abs_of_pos (by norm_num)
    have hfl : (⌊((123456:ℚ) / 1000000) * 1000⌋ : ℤ) = 123 := by
      rw [Int.floor_eq_iff]
      norm_num
    have hr : GenerateSummaryMd.roundHalfEven (|((123456:ℚ) / 1000000)| * 1000) = 123 := by
      rw [habs]
      simp only [GenerateSummaryMd.roundHalfEven]
      rw [hfl]
      norm_num
    simp only [GenerateSummaryMd.fmt_val]
    rw [if_pos (Or.inl (by rw [habs]; norm_num))]
    simp only [GenerateSummaryMd.fmtFixed3]
    rw [hr]
    rw [if_neg (by norm_num : ¬((123456:ℚ) / 1000000) < 0)]
    decide
  · have habs : |((5:ℚ) / 10000)| = 5 / 10000 := abs_of_pos (by norm_num)
    have hsd : GenerateSummaryMd.sciExpDown |((5:ℚ) / 10000)| (|((5:ℚ) / 10000)|).den 0 = 4 := by
      apply GenerateSummaryMd.sciExpDown_eq_least
      · rw [habs]; norm_num
      · intro j hj
        rw [habs]
        interval_cases j <;> norm_num
      · rw [habs]
        norm_num [Rat.den]
    simp only [GenerateSummaryMd.fmt_val]
    rw [if_neg (not_or.mpr ⟨by rw [habs]; norm_num, by norm_num⟩)]
    simp only [GenerateSummaryMd.fmtSci1]
    rw [if_neg (by norm_num : ¬((5:ℚ) / 10000) = 0)]
    rw [if_neg (by rw [habs]; norm_num : ¬ (1:ℚ) ≤ |((5:ℚ) / 10000)|)]
    rw [hsd]
    have h50 : GenerateSummaryMd.roundHalfEven
        (|((5:ℚ) / 10000)| * 10 * 10 ^ ((- -Int.ofNat 4).toNat)) = 50 := by
      rw [habs]
      have h4 : ((- -Int.ofNat 4).toNat) = 4 := by decide
      rw [h4]
      simp only [GenerateSummaryMd.roundHalfEven]
      have hfl : (⌊((5:ℚ) / 10000) * 10 * 10 ^ (4:ℕ)⌋ : ℤ) = 50 := by
        rw [Int.floor_eq_iff]
        norm_num
      rw [hfl]
      norm_num
    rw [if_neg (by decide : ¬ (0:ℤ) ≤ -Int.ofNat 4), h50]
    rw [if_neg (by norm_num : ¬((5:ℚ) / 10000) < 0)]
    decide

/-- Witness for `c9_fmt_val_policy` at `v = 2` (fixed branch) and
`v = 1/5000` (scientific branch). -/
theorem c9_fmt_val_policy_witness :
    GenerateSummaryMd.fmt_val 2
        = (if (2:ℚ) < 0 then "-" else "")
          ++ toString ((GenerateSummaryMd.roundHalfEven (|(2:ℚ)| * 1000)).toNat / 1000)
          ++ "." ++ GenerateSummaryMd.pad3 ((GenerateSummaryMd.roundHalfEven (|(2:ℚ)| * 1000)).toNat % 1000)
    ∧ GenerateSummaryMd.fmt_val (1 / 5000) = GenerateSummaryMd.fmtSci1 (1 / 5000) := by
  have h := c9_fmt_val_policy
  exact ⟨(h.1 2 (Or.inl (by norm_num))).1,
    (h.2.1 (1 / 5000)
      (by rw [abs_of_pos (by norm_num : (0:ℚ) < 1 / 5000)]; norm_num)
      (by norm_num)).1⟩

namespace RenderSvg

/-- A conflict outcome sleeps `2 ** attempt` and continues the loop with
`last_err` updated. -/
theorem retryGo_conflict_step (f : Nat → AttemptOutcome) (fuel i : Nat)
    (sleeps : List Nat) (last : Option Str)
    (h : isConflictOutcome (f i) = true) :
    retryGo f (fuel + 1) i sleeps last
      = retryGo f fuel (i + 1) (sleeps ++ [2 ^ i]) (some (outcomeMsg (f i))) := by
  cases hf : f i with
  | ok => rw [hf] at h; simp [isConflictOutcome] at h
  | err m =>
      rw [hf] at h
      simp only [isConflictOutcome] at h
      simp [retryGo, hf, h, outcomeMsg]

/-- A successful attempt breaks out of the loop at once. -/
theorem retryGo_ok_step (f : Nat → AttemptOutcome) (fuel i : Nat)
    (sleeps : List Nat) (last : Option Str) (h : f i = .ok) :
    retryGo f (fuel + 1) i sleeps last = .success (i + 1) sleeps := by
  simp [retryGo, h]

/-- A non-conflict error is re-raised immediately, with no further
attempts and no sleep. -/
theorem retryGo_fatal_step (f : Nat → AttemptOutcome) (fuel i : Nat)
    (sleeps : List Nat) (last : Option Str) (m : Str)
    (hm : f i = .err m) (hc : isConflictMsg m = false) :
    retryGo f (fuel + 1) i sleeps last = .fatal m (i + 1) sleeps := by
  simp [retryGo, hm, hc]

/-- Running the loop across a block of `k` consecutive conflict attempts
consumes `k` units of fuel, sleeps the doubling delays `2 ^ i`, and
records the last conflict's message. -/
theorem retryGo_conflicts (f : Nat → AttemptOutcome) :
    ∀ (k fuel i : Nat) (sleeps : List Nat) (last : Option Str),
      (∀ j, j < k → isConflictOutcome (f (i + j)) = true) → k ≤ fuel →
      retryGo f fuel i sleeps last
        = retryGo f (fuel - k) (i + k)
            (sleeps ++ (List.range k).map (fun j => 2 ^ (i + j)))
            (if k = 0 then last else some (outcomeMsg (f (i + k - 1)))) := by
  intro k
  induction k with
  | zero =>
      intro fuel i sleeps last _ _
      simp
  | succ k ih =>
      intro fuel i sleeps last hconf hk
      obtain ⟨fu, rfl⟩ : ∃ fu, fuel = fu + 1 := ⟨fuel - 1, by omega⟩
      have h0 : isConflictOutcome (f i) = true := by
        have := hconf 0 (by omega)
        simpa using this
      rw [retryGo_conflict_step f fu i sleeps last h0]
      have hconf2 : ∀ j, j < k → isConflictOutcome (f (i + 1 + j)) = true := by
        intro j hj
        have := hconf (j + 1) (by omega)
        rwa [show i + (j + 1) = i + 1 + j by omega] at this
      rw [ih fu (i + 1) (sleeps ++ [2 ^ i]) (some (outcomeMsg (f i))) hconf2 (by omega)]
      have hsleeps : sleeps ++ [2 ^ i] ++ (List.range k).map (fun j => 2 ^ (i + 1 + j))
          = sleeps ++ (List.range (k + 1)).map (fun j => 2 ^ (i + j)) := by
        rw [List.range_succ_eq_map, List.map_cons, List.map_map, List.append_assoc,
          List.singleton_append]
        congr 1
        congr 1
        apply List.map_congr_left
        intro a _
        simp only [Function.comp_apply]
        have haa : i + 1 + a = i + (a + 1) := by omega
        rw [haa]
      have hlast : (if k = 0 then some (outcomeMsg (f i))
            else some (outcomeMsg (f (i + 1 + k - 1))))
          = some (outcomeMsg (f (i + (k + 1) - 1))) := by
        split_ifs with hk0
        · subst hk0
          norm_num
        · have harg : i + 1 + k - 1 = i + (k + 1) - 1 := by omega
          rw [harg]
      rw [hsleeps, hlast, show fu - k = fu + 1 - (k + 1) by omega,
        show i + 1 + k = i + (k + 1) by omega]
      simp

end RenderSvg

/-- Counterexample to C8 as frozen: the ledger append of
`phase2_step2.main` is one of the claim's store-write conflict sites, yet
an outcome that the retry loop's own test classifies as a conflict (the
`RuntimeError` text produced by `gh_api_request` for a 409) is immediately
fatal there — one attempt, no backoff — so the read-modify-write cycle is
not retried on conflict. -/
theorem c8_ledger_no_retry_counterexample :
    Phase2Step2.ledger_write_once
        (RenderSvg.AttemptOutcome.err ("GitHub API error 409 Conflict: x".toList))
      = RenderSvg.LoopResult.fatal ("GitHub API error 409 Conflict: x".toList) 1 []
    ∧ RenderSvg.isConflictMsg ("GitHub API error 409 Conflict: x".toList) = true := by
  exact ⟨rfl, by decide⟩

/-- C8 (amended): only the SVG-upload store write of `render_svg.main` is
retried, and the loop re-issues the bare `update_gist_file` call — the SVG
content is computed once before the loop and nothing is re-read inside it,
so it is a write-only retry, not a read-modify-write cycle. That loop makes
at most six attempts; a run of conflict outcomes is retried with
exponentially doubling delays (1, 2, 4, 8, 16, 32 seconds); exhausting all
six attempts on conflicts is fatal and surfaces the last underlying error;
a non-conflict error is fatal immediately; a success after conflicts stops
the loop. The other store write the claim cites, the ledger append of
`phase2_step2.main`, is never retried: its single `update_gist_file`
attempt makes any error — conflict included — immediately fatal with no
backoff. -/
theorem c8_retry_policy (f : Nat → RenderSvg.AttemptOutcome) :
    ((∀ i, i < 6 → RenderSvg.isConflictOutcome (f i) = true) →
      RenderSvg.upload_with_retry f
        = RenderSvg.LoopResult.exhausted (RenderSvg.outcomeMsg (f 5)) [1, 2, 4, 8, 16, 32])
    ∧ (∀ i m, i < 6 → f i = RenderSvg.AttemptOutcome.err m →
        RenderSvg.isConflictMsg m = false →
        (∀ j, j < i → RenderSvg.isConflictOutcome (f j) = true) →
        RenderSvg.upload_with_retry f
          = RenderSvg.LoopResult.fatal m (i + 1) ((List.range i).map (fun j => 2 ^ j)))
    ∧ (∀ i, i < 6 → f i = RenderSvg.AttemptOutcome.ok →
        (∀ j, j < i → RenderSvg.isConflictOutcome (f j) = true) →
        RenderSvg.upload_with_retry f
          = RenderSvg.LoopResult.success (i + 1) ((List.range i).map (fun j => 2 ^ j)))
    ∧ (∀ m : Str, Phase2Step2.ledger_write_once (RenderSvg.AttemptOutcome.err m)
        = RenderSvg.LoopResult.fatal m 1 []) := by
  refine ⟨?_, ?_, ?_, ?_⟩
  · intro hconf
    have L := RenderSvg.retryGo_conflicts f 6 6 0 [] none
      (fun j hj => by simpa using hconf j hj) (le_refl 6)
    simp only [RenderSvg.upload_with_retry]
    rw [L]
    norm_num
    simp [RenderSvg.retryGo]
    decide
  · intro i m hi hfm hnc hprev
    have L := RenderSvg.retryGo_conflicts f i 6 0 [] none
      (fun j hj => by simpa using hprev j hj) (by omega)
    simp only [RenderSvg.upload_with_retry]
    rw [L]
    obtain ⟨fu, hfu⟩ : ∃ fu, 6 - i = fu + 1 := ⟨5 - i, by omega⟩
    rw [hfu]
    rw [RenderSvg.retryGo_fatal_step f fu (0 + i) _ _ m (by simpa using hfm) hnc]
    simp
  · intro i hi hfm hprev
    have L := RenderSvg.retryGo_conflicts f i 6 0 [] none
      (fun j hj => by simpa using hprev j hj) (by omega)
    simp only [RenderSvg.upload_with_retry]
    rw [L]
    obtain ⟨fu, hfu⟩ : ∃ fu, 6 - i = fu + 1 := ⟨5 - i, by omega⟩
    rw [hfu]
    rw [RenderSvg.retryGo_ok_step f fu (0 + i) _ _ (by simpa using hfm)]
    simp
  · intro m
    rfl

/-- Witness for `c8_retry_policy`: all-conflict, conflict-then-fatal, and
conflict-then-success sequences for the upload loop, plus a single-attempt
fatal outcome for the ledger write. -/
theorem c8_retry_policy_witness :
    RenderSvg.upload_with_retry (fun _ => RenderSvg.AttemptOutcome.err (" 409 ".toList))
        = RenderSvg.LoopResult.exhausted (" 409 ".toList) [1, 2, 4, 8, 16, 32]
    ∧ RenderSvg.upload_with_retry
          (fun i => if i = 0 then RenderSvg.AttemptOutcome.err (" 409 ".toList)
            else RenderSvg.AttemptOutcome.err ("boom".toList))
        = RenderSvg.LoopResult.fatal ("boom".toList) 2 [1]
    ∧ RenderSvg.upload_with_retry
          (fun i => if i < 2 then RenderSvg.AttemptOutcome.err ("409 Conflict".toList)
            else RenderSvg.AttemptOutcome.ok)
        = RenderSvg.LoopResult.success 3 [1, 2]
    ∧ Phase2Step2.ledger_write_once (RenderSvg.AttemptOutcome.err ("boom".toList))
        = RenderSvg.LoopResult.fatal ("boom".toList) 1 [] := by
  refine ⟨?_, ?_, ?_, ?_⟩
  · exact (c8_retry_policy _).1 (by decide)
  · exact (c8_retry_policy _).2.1 1 ("boom".toList) (by decide) (by decide) (by decide) (by decide)
  · exact (c8_retry_policy _).2.2.1 2 (by decide) (by decide) (by decide)
  · exact (c8_retry_policy (fun _ => RenderSvg.AttemptOutcome.ok)).2.2.2 ("boom".toList)

/-- A split always produces at least one piece. -/
theorem splitCh_ne_nil (c : Char) : ∀ s : Str, splitCh c s ≠ [] := by
  intro s
  cases s with
  | nil => simp [splitCh]
  | cons x xs =>
      simp only [splitCh]
      split_ifs <;> simp

/-- Splitting peels off a separator-free prefix at the first separator. -/
theorem splitCh_append_cons (c : Char) :
    ∀ (xs ys : Str), c ∉ xs → splitCh c (xs ++ c :: ys) = xs :: splitCh c ys := by
  intro xs
  induction xs with
  | nil =>
      intro ys _
      simp [splitCh]
  | cons a t ih =>
      intro ys h
      have ha : ¬(a = c) := fun he => h (he ▸ List.mem_cons_self a t)
      have ht : c ∉ t := fun hm => h (List.mem_cons_of_mem _ hm)
      rw [List.cons_append]
      simp only [splitCh]
      rw [ih ys ht, if_neg ha]
      simp

/-- A separator-free string splits into itself. -/
theorem splitCh_no_sep (c : Char) : ∀ s : Str, c ∉ s → splitCh c s = [s] := by
  intro s
  induction s with
  | nil => intro _; rfl
  | cons a t ih =>
      intro h
      have ha : ¬(a = c) := fun he => h (he ▸ List.mem_cons_self a t)
      have ht : c ∉ t := fun hm => h (List.mem_cons_of_mem _ hm)
      simp only [splitCh]
      rw [ih ht, if_neg ha]
      simp

/-- A character of a join is the separator or comes from some piece. -/
theorem mem_joinCh (c : Char) :
    ∀ (xss : List Str) (x : Char), x ∈ joinCh c xss → x = c ∨ ∃ xs ∈ xss, x ∈ xs := by
  intro xss
  induction xss with
  | nil => intro x hx; simp [joinCh] at hx
  | cons s rest ih =>
      intro x hx
      cases rest with
      | nil =>
          simp only [joinCh] at hx
          exact Or.inr ⟨s, List.mem_cons_self _ _, hx⟩
      | cons y t =>
          simp only [joinCh] at hx
          rcases List.mem_append.mp hx with h | h
          · exact Or.inr ⟨s, List.mem_cons_self _ _, h⟩
          · rcases List.mem_cons.mp h with h2 | h2
            · exact Or.inl h2
            · rcases ih x h2 with h3 | ⟨xs, hxs, hx3⟩
              · exact Or.inl h3
              · exact Or.inr ⟨xs, List.mem_cons_of_mem _ hxs, hx3⟩

/-- Splitting inverts joining for separator-free pieces. -/
theorem splitCh_joinCh (c : Char) :
    ∀ xss : List Str, xss ≠ [] → (∀ xs ∈ xss, c ∉ xs) →
      splitCh c (joinCh c xss) = xss := by
  intro xss
  induction xss with
  | nil => intro h _; exact absurd rfl h
  | cons x rest ih =>
      intro _ hmem
      cases rest with
      | nil =>
          simp only [joinCh]
          exact splitCh_no_sep c x (hmem x (List.mem_cons_self _ _))
      | cons y t =>
          simp only [joinCh]
          rw [splitCh_append_cons c x _ (hmem x (List.mem_cons_self _ _))]
          rw [ih (by simp) (fun xs hxs => hmem xs (List.mem_cons_of_mem _ hxs))]

/-- Splitting a block of terminator-ended lines recovers the lines plus
the empty trailing piece. -/
theorem splitCh_terminated_lines (c : Char) :
    ∀ lines : List Str, (∀ l ∈ lines, c ∉ l) →
      splitCh c ((lines.map (fun l => l ++ [c])).flatten) = lines ++ [[]] := by
  intro lines
  induction lines with
  | nil => intro _; rfl
  | cons l ls ih =>
      intro h
      rw [List.map_cons, List.flatten_cons, List.append_assoc, List.singleton_append,
        splitCh_append_cons c l _ (h l (List.mem_cons_self _ _)),
        ih (fun x hx => h x (List.mem_cons_of_mem _ hx))]
      rfl

namespace Phase2Step2

/-- Parsing inverts serialization for nonempty rows of plain fields. -/
theorem csvParse_csvWrite (rows : List (List Str))
    (h1 : ∀ r ∈ rows, r ≠ [])
    (h2 : ∀ r ∈ rows, ∀ f ∈ r, ',' ∉ f ∧ '\n' ∉ f) :
    csvParse (csvWrite rows) = rows := by
  have hmapw : rows.map writeRow = (rows.map (fun r => joinCh ',' r)).map (fun l => l ++ ['\n']) := by
    rw [List.map_map]
    rfl
  have hlines : ∀ l ∈ rows.map (fun r => joinCh ',' r), '\n' ∉ l := by
    intro l hl hn
    obtain ⟨r, hr, rfl⟩ := List.mem_map.mp hl
    rcases mem_joinCh ',' r '\n' hn with h | ⟨f, hf, hx⟩
    · exact absurd h (by decide)
    · exact (h2 r hr f hf).2 hx
  have hsplit : splitCh '\n' (csvWrite rows)
      = rows.map (fun r => joinCh ',' r) ++ [[]] := by
    rw [csvWrite, hmapw]
    exact splitCh_terminated_lines '\n' _ hlines
  simp only [csvParse, csvLines]
  rw [hsplit, List.getLast?_concat, if_pos rfl, List.dropLast_concat, List.map_map]
  have hroweq : ∀ r ∈ rows, (splitCh ',' ∘ fun r => joinCh ',' r) r = id r := by
    intro r hr
    simp only [Function.comp_apply, id]
    exact splitCh_joinCh ',' r (h1 r hr) (fun f hf => (h2 r hr f hf).1)
  rw [List.map_congr_left hroweq, List.map_id]

end Phase2Step2

namespace Phase2Step2

/-- Reading a row built by mapping a function over the header recovers
the function value at any header key. -/
theorem dictGet_map_self (g : Str → Str) (k : Str) :
    ∀ F : List Str, k ∈ F → dictGet F (F.map g) k = g k := by
  intro F
  induction F with
  | nil => intro h; simp at h
  | cons h t ih =>
      intro hk
      by_cases he : h = k
      · subst he
        unfold dictGet
        rw [List.findIdx?_cons, if_pos (by simp)]
        simp
      · have hk' : k ∈ t := by
          rcases List.mem_cons.mp hk with h2 | h2
          · exact absurd h2.symm he
          · exact h2
        have IH := ih hk'
        unfold dictGet at IH ⊢
        rw [List.findIdx?_cons, if_neg (by simpa using he), List.findIdx?_succ]
        cases hfind : List.findIdx? (fun x => decide (x = k)) t with
        | none => rw [hfind] at IH; simpa using IH
        | some j =>
            rw [hfind] at IH
            simp only [hfind, Option.map_some, List.map_cons, List.getD_cons_succ]
            simpa using IH

/-- A key absent from the header reads as the empty string. -/
theorem dictGet_not_mem (hdr row : List Str) (k : Str) (hk : k ∉ hdr) :
    dictGet hdr row k = [] := by
  unfold dictGet
  have hfind : List.findIdx? (fun h => decide (h = k)) hdr = none := by
    rw [List.findIdx?_eq_none_iff]
    intro x hx
    exact decide_eq_false (fun he => hk (he ▸ hx))
  rw [hfind]

/-- A `dictGet` result is the empty string or one of the row's cells. -/
theorem dictGet_eq_nil_or_mem (hdr row : List Str) (k : Str) :
    dictGet hdr row k = [] ∨ dictGet hdr row k ∈ row := by
  unfold dictGet
  cases hfind : List.findIdx? (fun h => decide (h = k)) hdr with
  | none => exact Or.inl rfl
  | some i =>
      rcases Nat.lt_or_ge i row.length with h | h
      · refine Or.inr ?_
        show row.getD i [] ∈ row
        rw [List.getD_eq_getElem _ _ h]
        exact List.getElem_mem _
      · refine Or.inl ?_
        show row.getD i [] = []
        exact List.getD_eq_default _ _ h

/-- An `assocGet` result is the empty string or one of the dict values. -/
theorem assocGet_eq_nil_or_mem (row : List (Str × Str)) (k : Str) :
    assocGet row k = [] ∨ ∃ kv ∈ row, assocGet row k = kv.2 := by
  unfold assocGet
  cases hfind : List.find? (fun kv => decide (kv.1 = k)) row with
  | none => exact Or.inl rfl
  | some kv => exact Or.inr ⟨kv, List.mem_of_find?_eq_some hfind, rfl⟩

end Phase2Step2

/-- Stripping a string holding a non-whitespace character yields a
nonempty result. -/
theorem pyStrip_ne_nil {s : Str} (h : ∃ c ∈ s, isWs c = false) : pyStrip s ≠ [] := by
  obtain ⟨c, hc, hcw⟩ := h
  intro hnil
  unfold pyStrip at hnil
  rw [List.reverse_eq_nil_iff] at hnil
  have hall : ∀ x ∈ (s.dropWhile isWs).reverse, isWs x = true :=
    List.dropWhile_eq_nil_iff.mp hnil
  have hcd : c ∈ s.dropWhile isWs := by
    have hsplit := List.takeWhile_append_dropWhile isWs s
    rcases List.mem_append.mp (by rw [hsplit]; exact hc) with h2 | h2
    · exact absurd (List.mem_takeWhile_imp h2) (by simp [hcw])
    · exact h2
  have := hall c (List.mem_reverse.mpr hcd)
  rw [hcw] at this
  exact absurd this (by simp)

/-- Characters of the pieces survive into the join. -/
theorem joinCh_mem (c : Char) :
    ∀ (xss : List Str) (xs : Str) (x : Char), xs ∈ xss → x ∈ xs → x ∈ joinCh c xss := by
  intro xss
  induction xss with
  | nil => intro xs x h _; simp at h
  | cons s rest ih =>
      intro xs x hxs hx
      cases rest with
      | nil =>
          rcases List.mem_cons.mp hxs with h2 | h2
          · subst h2; simpa [joinCh] using hx
          · simp at h2
      | cons y t =>
          simp only [joinCh]
          rcases List.mem_cons.mp hxs with h2 | h2
          · exact List.mem_append.mpr (Or.inl (h2 ▸ hx))
          · exact List.mem_append.mpr (Or.inr (List.mem_cons_of_mem _ (ih xs x h2 hx)))

/-- C7: appending a row with a superset field list rewrites the header to
the current field list, re-emits every existing row with its original
values preserved under their original keys and the empty string under
every newly added key, and places the new row last; parsing the result
back recovers exactly that table, and reading any old row of it returns
the original value for every old key and the empty string for every new
key. -/
theorem c7_append_round_trip
    (F0 F : List Str) (rows0 : List (List Str)) (newRow : List (Str × Str))
    (hF0 : ∀ f ∈ F0, Phase2Step2.plainField f)
    (hF : ∀ f ∈ F, Phase2Step2.plainField f)
    (hF0ne : F0 ≠ [])
    (hsub : ∀ k ∈ F0, k ∈ F)
    (hlen : ∀ r ∈ rows0, r.length = F0.length)
    (hvals : ∀ r ∈ rows0, ∀ v ∈ r, ',' ∉ v ∧ '\n' ∉ v)
    (hnew : ∀ kv ∈ newRow, ',' ∉ kv.2 ∧ '\n' ∉ kv.2) :
    Phase2Step2.csvParse
        (Phase2Step2.append_csv_row (some (Phase2Step2.csvWrite (F0 :: rows0))) newRow F)
      = F :: (rows0.map (fun r => F.map (fun k => Phase2Step2.dictGet F0 r k))
          ++ [F.map (fun k => Phase2Step2.assocGet newRow k)])
    ∧ (∀ r ∈ rows0, ∀ k ∈ F0,
        Phase2Step2.dictGet F (F.map (fun j => Phase2Step2.dictGet F0 r j)) k
          = Phase2Step2.dictGet F0 r k)
    ∧ (∀ k ∈ F, k ∉ F0 → ∀ r : List Str,
        Phase2Step2.dictGet F (F.map (fun j => Phase2Step2.dictGet F0 r j)) k = []) := by
  obtain ⟨f0, F0t, rfl⟩ : ∃ f0 F0t, F0 = f0 :: F0t := by
    cases F0 with
    | nil => exact absurd rfl hF0ne
    | cons a b => exact ⟨a, b, rfl⟩
  have hf0 := hF0 f0 (List.mem_cons_self _ _)
  obtain ⟨c0, f0t, rfl⟩ : ∃ c0 f0t, f0 = c0 :: f0t := by
    cases f0 with
    | nil => exact absurd rfl hf0.1
    | cons a b => exact ⟨a, b, rfl⟩
  set F0 := (c0 :: f0t) :: F0t with hF0def
  have hFne : F ≠ [] := by
    intro h
    have hm := hsub (c0 :: f0t) (List.mem_cons_self _ _)
    rw [h] at hm
    simp at hm
  have hstrip : pyStrip (Phase2Step2.csvWrite (F0 :: rows0)) ≠ [] := by
    apply pyStrip_ne_nil
    refine ⟨c0, ?_, (hf0.2 c0 (List.mem_cons_self _ _)).2.2⟩
    apply List.mem_flatten.mpr
    refine ⟨Phase2Step2.writeRow F0, List.mem_map_of_mem _ (List.mem_cons_self _ _), ?_⟩
    unfold Phase2Step2.writeRow
    exact List.mem_append.mpr (Or.inl
      (joinCh_mem ',' F0 (c0 :: f0t) c0 (List.mem_cons_self _ _) (List.mem_cons_self _ _)))
  have hparse0 : Phase2Step2.csvParse (Phase2Step2.csvWrite (F0 :: rows0)) = F0 :: rows0 := by
    apply Phase2Step2.csvParse_csvWrite
    · intro r hr
      rcases List.mem_cons.mp hr with h2 | h2
      · rw [h2]; exact hF0ne
      · intro hnil
        have := hlen r h2
        rw [hnil] at this
        simp [hF0def] at this
    · intro r hr f hf
      rcases List.mem_cons.mp hr with h2 | h2
      · subst h2
        have := hF0 f hf
        exact ⟨fun hc => (this.2 ',' hc).1 rfl, fun hc => ((this.2 '\n' hc).2.1 rfl)⟩
      · exact hvals r h2 f hf
  have happ : Phase2Step2.append_csv_row (some (Phase2Step2.csvWrite (F0 :: rows0))) newRow F
      = Phase2Step2.csvWrite (F :: (rows0.map (fun r => F.map (fun k => Phase2Step2.dictGet F0 r k))
          ++ [F.map (fun k => Phase2Step2.assocGet newRow k)])) := by
    simp only [Phase2Step2.append_csv_row]
    rw [if_neg hstrip, hparse0]
  refine ⟨?_, ?_, ?_⟩
  · rw [happ]
    apply Phase2Step2.csvParse_csvWrite
    · intro r hr
      rcases List.mem_cons.mp hr with h2 | h2
      · rw [h2]; exact hFne
      · rcases List.mem_append.mp h2 with h3 | h3
        · obtain ⟨r0, _, rfl⟩ := List.mem_map.mp h3
          simpa using hFne
        · rw [List.mem_singleton.mp h3]
          simpa using hFne
    · intro r hr f hf
      rcases List.mem_cons.mp hr with h2 | h2
      · subst h2
        have := hF f hf
        exact ⟨fun hc => (this.2 ',' hc).1 rfl, fun hc => ((this.2 '\n' hc).2.1 rfl)⟩
      · rcases List.mem_append.mp h2 with h3 | h3
        · obtain ⟨r0, hr0, rfl⟩ := List.mem_map.mp h3
          obtain ⟨kk, _, rfl⟩ := List.mem_map.mp hf
          rcases Phase2Step2.dictGet_eq_nil_or_mem F0 r0 kk with h4 | h4
          · rw [h4]; exact ⟨by simp, by simp⟩
          · exact hvals r0 hr0 _ h4
        · rw [List.mem_singleton.mp h3] at hf
          obtain ⟨kk, _, rfl⟩ := List.mem_map.mp hf
          rcases Phase2Step2.assocGet_eq_nil_or_mem newRow kk with h4 | ⟨kv, hkv, h4⟩
          · rw [h4]; exact ⟨by simp, by simp⟩
          · rw [h4]; exact hnew kv hkv
  · intro r _ k hk
    exact Phase2Step2.dictGet_map_self (fun j => Phase2Step2.dictGet F0 r j) k F (hsub k hk)
  · intro k hkF hk0 r
    rw [Phase2Step2.dictGet_map_self (fun j => Phase2Step2.dictGet F0 r j) k F hkF]
    exact Phase2Step2.dictGet_not_mem F0 r k hk0

/-- Witness for `c7_append_round_trip` with old fields `a, b`, one
existing row `1, 2`, new fields `a, b, c`, and new row holding `a = 3`
and `c = 9`. -/
theorem c7_append_round_trip_witness :
    Phase2Step2.csvParse
        (Phase2Step2.append_csv_row
          (some (Phase2Step2.csvWrite [["a".toList, "b".toList], ["1".toList, "2".toList]]))
          [("a".toList, "3".toList), ("c".toList, "9".toList)]
          ["a".toList, "b".toList, "c".toList])
      = ["a".toList, "b".toList, "c".toList]
        :: ([["1".toList, "2".toList]].map (fun r =>
              ["a".toList, "b".toList, "c".toList].map
                (fun k => Phase2Step2.dictGet ["a".toList, "b".toList] r k))
          ++ [["a".toList, "b".toList, "c".toList].map
                (fun k => Phase2Step2.assocGet
                  [("a".toList, "3".toList), ("c".toList, "9".toList)] k)])
    ∧ Phase2Step2.dictGet ["a".toList, "b".toList, "c".toList]
          (["a".toList, "b".toList, "c".toList].map
            (fun j => Phase2Step2.dictGet ["a".toList, "b".toList] ["1".toList, "2".toList] j))
          ("a".toList)
        = Phase2Step2.dictGet ["a".toList, "b".toList] ["1".toList, "2".toList] ("a".toList)
    ∧ Phase2Step2.dictGet ["a".toList, "b".toList, "c".toList]
          (["a".toList, "b".toList, "c".toList].map
            (fun j => Phase2Step2.dictGet ["a".toList, "b".toList] ["1".toList, "2".toList] j))
          ("c".toList)
        = [] := by
  have h := c7_append_round_trip ["a".toList, "b".toList] ["a".toList, "b".toList, "c".toList]
    [["1".toList, "2".toList]] [("a".toList, "3".toList), ("c".toList, "9".toList)]
    (by decide) (by decide) (by decide) (by decide) (by decide) (by decide) (by decide)
  exact ⟨h.1, h.2.1 ["1".toList, "2".toList] (by decide) ("a".toList) (by decide),
    h.2.2 ("c".toList) (by decide) (by decide) ["1".toList, "2".toList]⟩
